import Mathlib

/-
Verification of the OnSocial protocol authorization core against its
specification.  The payload-canonicalization and signing definitions are
shallow embeddings of the Python client scripts
(scripts/test_signed_payload.py and scripts/test_delegate_action.py).
The permission registry, group registry and proposal engine live in the
contract, whose source is not part of this tree; those components are
modelled from the specification, as marked in their doc comments.
-/

namespace OnSocial

/-- JSON values as manipulated by the Python scripts: null, booleans,
integers, strings, arrays, and objects represented as ordered key-value
lists (Python dicts preserve insertion order). -/
inductive Json where
  | null : Json
  | bool : Bool → Json
  | num : Int → Json
  | str : String → Json
  | arr : List Json → Json
  | obj : List (String × Json) → Json

/-- Association-list lookup for JSON object fields. -/
def lookupKey (k : String) : List (String × Json) → Option Json
  | [] => none
  | kv :: rest => if kv.1 = k then some kv.2 else lookupKey k rest

/-- Stable insertion into a key-sorted key-value list, comparing keys the
way the Python `sorted` builtin compares the first components of `dict.items()`. -/
def insertByKey (kv : String × Json) : List (String × Json) → List (String × Json)
  | [] => [kv]
  | kv2 :: rest => if kv.1 ≤ kv2.1 then kv :: kv2 :: rest else kv2 :: insertByKey kv rest

/-- Stable sort of key-value pairs by key; models `sorted(value.items())`
in `canonicalize_json` (dict keys are unique, so only keys are compared). -/
def sortByKey : List (String × Json) → List (String × Json)
  | [] => []
  | kv :: rest => insertByKey kv (sortByKey rest)

mutual

/-- Function `canonicalize_json` from the scripts: sort object keys recursively,
map over lists, leave scalars unchanged. -/
def canonicalize_json : Json → Json
  | .null => .null
  | .bool b => .bool b
  | .num n => .num n
  | .str s => .str s
  | .arr xs => .arr (canonList xs)
  | .obj kvs => .obj (sortByKey (canonKvs kvs))

/-- Canonicalize every element of a JSON array (the list branch of
`canonicalize_json`). -/
def canonList : List Json → List Json
  | [] => []
  | x :: xs => canonicalize_json x :: canonList xs

/-- Canonicalize every value of a JSON object (the dict comprehension in
`canonicalize_json`). -/
def canonKvs : List (String × Json) → List (String × Json)
  | [] => []
  | kv :: rest => (kv.1, canonicalize_json kv.2) :: canonKvs rest

end

/-! ## Compact JSON serialization (`json.dumps(..., separators=(",", ":"))`) -/

/-- One hexadecimal digit, lowercase, as an ASCII byte. -/
def hexDigit (n : Nat) : Nat := if n < 10 then 48 + n else 87 + n

/-- Four-digit lowercase hexadecimal rendering of a code unit, as ASCII
bytes; models the Python u-escape formatting. -/
def hex4 (n : Nat) : List Nat :=
  [hexDigit (n / 4096 % 16), hexDigit (n / 256 % 16), hexDigit (n / 16 % 16), hexDigit (n % 16)]

/-- Escape of a single character (given as its code point) inside a JSON
string, following the CPython ASCII string encoder: two-character escapes
for quote, backslash and the usual control characters, u-escapes for the
other control and all non-ASCII characters (surrogate pairs above the
BMP), everything printable-ASCII verbatim. -/
def escCode (c : Nat) : List Nat :=
  if c = 34 then [92, 34]
  else if c = 92 then [92, 92]
  else if c = 8 then [92, 98]
  else if c = 9 then [92, 116]
  else if c = 10 then [92, 110]
  else if c = 12 then [92, 102]
  else if c = 13 then [92, 114]
  else if 32 ≤ c ∧ c ≤ 126 then [c]
  else if c < 65536 then 92 :: 117 :: hex4 c
  else (92 :: 117 :: hex4 (55296 + (c - 65536) / 1024)) ++
       (92 :: 117 :: hex4 (56320 + (c - 65536) % 1024))

/-- JSON escape of a whole string, as the list of bytes of its encoded
form (the output of the ASCII encoder is pure ASCII, so bytes and
characters coincide). -/
def escString (s : String) : List Nat :=
  s.data.foldr (fun ch acc => escCode ch.toNat ++ acc) []

/-- Decimal ASCII bytes of an integer, as the Python `str`/JSON number
rendering produces them. -/
def intBytes (i : Int) : List Nat := (toString i).data.map (fun c => c.toNat)

mutual

/-- UTF-8 bytes of `json.dumps(value, separators=(",", ":"))`: compact
separators (a lone comma between items, a lone colon after each key), no
whitespace, object keys emitted in list order, `ensure_ascii` escaping.
Byte 123 is the opening brace, 125 the closing brace, 91/93 the brackets,
44 the comma, 58 the colon, 34 the double quote. -/
def dumpsBytes : Json → List Nat
  | .null => [110, 117, 108, 108]
  | .bool true => [116, 114, 117, 101]
  | .bool false => [102, 97, 108, 115, 101]
  | .num i => intBytes i
  | .str s => 34 :: (escString s ++ [34])
  | .arr xs => 91 :: (dumpsList xs ++ [93])
  | .obj kvs => 123 :: (dumpsObj kvs ++ [125])

/-- Comma-separated serialization of array elements. -/
def dumpsList : List Json → List Nat
  | [] => []
  | [x] => dumpsBytes x
  | x :: y :: rest => dumpsBytes x ++ 44 :: dumpsList (y :: rest)

/-- Comma-separated serialization of object entries, each as
quoted-key, colon, value. -/
def dumpsObj : List (String × Json) → List Nat
  | [] => []
  | [kv] => 34 :: (escString kv.1 ++ 34 :: 58 :: dumpsBytes kv.2)
  | kv :: kv2 :: rest =>
      (34 :: (escString kv.1 ++ 34 :: 58 :: dumpsBytes kv.2)) ++ 44 :: dumpsObj (kv2 :: rest)

end

/-! ## Payload construction (`build_payload` in both scripts) -/

/-- Function `build_payload` from scripts/test_signed_payload.py: the payload dict
with keys in the fixed insertion order `target_account, public_key,
nonce, expires_at_ms, action, delegate_action`; `nonce` and
`expires_at_ms` are rendered with `str`, `action` and a present
`delegate_action` are canonicalized, an absent `delegate_action` becomes
`null`.  The top-level keys are deliberately not sorted. -/
def build_payload (target pk : String) (nonce expiresAtMs : Nat)
    (action : Json) (delegate : Option Json) : Json :=
  .obj [("target_account", .str target),
        ("public_key", .str pk),
        ("nonce", .str (toString nonce)),
        ("expires_at_ms", .str (toString expiresAtMs)),
        ("action", canonicalize_json action),
        ("delegate_action", match delegate with
          | none => .null
          | some d => canonicalize_json d)]

/-- Function `build_payload` from scripts/test_delegate_action.py: identical to the
signed-payload variant except that `delegate_action` is mandatory. -/
def build_payload_delegate (target pk : String) (nonce expiresAtMs : Nat)
    (action delegate : Json) : Json :=
  .obj [("target_account", .str target),
        ("public_key", .str pk),
        ("nonce", .str (toString nonce)),
        ("expires_at_ms", .str (toString expiresAtMs)),
        ("action", canonicalize_json action),
        ("delegate_action", canonicalize_json delegate)]

/-- Fields of a JSON object (empty for non-objects). -/
def payloadFields : Json → List (String × Json)
  | .obj kvs => kvs
  | _ => []

/-- Follows the words of claim C9, not the source: the hypothetical
counterparty encoding that renders `nonce` and `expires_at_ms` as JSON
numbers instead of decimal strings; used only to show it signs different
bytes. -/
def build_payload_numeric (target pk : String) (nonce expiresAtMs : Nat)
    (action : Json) (delegate : Option Json) : Json :=
  .obj [("target_account", .str target),
        ("public_key", .str pk),
        ("nonce", .num (Int.ofNat nonce)),
        ("expires_at_ms", .num (Int.ofNat expiresAtMs)),
        ("action", canonicalize_json action),
        ("delegate_action", match delegate with
          | none => .null
          | some d => canonicalize_json d)]

/-- Ordering of key-value pairs by key, the comparison `sorted` uses. -/
def keyLe (a b : String × Json) : Prop := a.1 ≤ b.1

/-- Keys of an object field list are pairwise distinct, phrased through
`lookupKey` (Python dicts cannot carry duplicate keys). -/
def nodupKeysB : List (String × Json) → Bool
  | [] => true
  | kv :: rest => (lookupKey kv.1 rest).isNone && nodupKeysB rest

/-- Adjacent-sortedness of the keys of an object. -/
def keysSortedB : List (String × Json) → Bool
  | [] => true
  | [_] => true
  | kv :: kv2 :: rest => decide (kv.1 ≤ kv2.1) && keysSortedB (kv2 :: rest)

mutual

/-- A JSON value is canonical when every object inside it has its keys
sorted and canonical values. -/
def isCanonB : Json → Bool
  | .null => true
  | .bool _ => true
  | .num _ => true
  | .str _ => true
  | .arr xs => isCanonList xs
  | .obj kvs => keysSortedB kvs && isCanonKvs kvs

/-- Every element of the list is canonical. -/
def isCanonList : List Json → Bool
  | [] => true
  | x :: xs => isCanonB x && isCanonList xs

/-- Every value of the field list is canonical. -/
def isCanonKvs : List (String × Json) → Bool
  | [] => true
  | kv :: rest => isCanonB kv.2 && isCanonKvs rest

end

mutual

/-- Two JSON values are equal as maps: equal scalars, pointwise-related
arrays, and objects with duplicate-free keys carrying the same key set
with map-equal values regardless of entry order. -/
def mapEquivB : Json → Json → Bool
  | .null, .null => true
  | .bool a, .bool b => decide (a = b)
  | .num a, .num b => decide (a = b)
  | .str a, .str b => decide (a = b)
  | .arr xs, .arr ys => mapEquivList xs ys
  | .obj kvs, .obj kvs2 =>
      nodupKeysB kvs && nodupKeysB kvs2 && decide (kvs.length = kvs2.length) &&
        mapEquivLookup kvs kvs2
  | _, _ => false

/-- Pointwise map-equivalence of two JSON arrays. -/
def mapEquivList : List Json → List Json → Bool
  | [], [] => true
  | x :: xs, y :: ys => mapEquivB x y && mapEquivList xs ys
  | _, _ => false

/-- Every entry of the first field list has a map-equal value under the
same key in the second. -/
def mapEquivLookup : List (String × Json) → List (String × Json) → Bool
  | [], _ => true
  | kv :: rest, kvs2 =>
      (match lookupKey kv.1 kvs2 with
       | some w => mapEquivB kv.2 w
       | none => false) && mapEquivLookup rest kvs2

end

/-! ## UTF-8 encoding and SHA-256 (`domain.encode("utf-8")`, `hashlib.sha256`) -/

/-- UTF-8 bytes of a single code point. -/
def utf8Char (c : Nat) : List Nat :=
  if c < 128 then [c]
  else if c < 2048 then [192 + c / 64, 128 + c % 64]
  else if c < 65536 then [224 + c / 4096, 128 + c / 64 % 64, 128 + c % 64]
  else [240 + c / 262144, 128 + c / 4096 % 64, 128 + c / 64 % 64, 128 + c % 64]

/-- UTF-8 bytes of a string, as `str.encode("utf-8")` yields them. -/
def utf8Bytes (s : String) : List Nat :=
  s.data.foldr (fun ch acc => utf8Char ch.toNat ++ acc) []

/-- Right rotation of a 32-bit word (input assumed reduced mod 2^32). -/
def rotr (n x : Nat) : Nat := x / 2 ^ n + x % 2 ^ n * 2 ^ (32 - n)

/-- SHA-256 choice function. -/
def sha2ch (e f g : Nat) : Nat := (e &&& f) ^^^ ((4294967295 - e) &&& g)

/-- SHA-256 majority function. -/
def sha2maj (a b c : Nat) : Nat := (a &&& b) ^^^ (a &&& c) ^^^ (b &&& c)

/-- SHA-256 big sigma 0. -/
def bsig0 (x : Nat) : Nat := rotr 2 x ^^^ rotr 13 x ^^^ rotr 22 x

/-- SHA-256 big sigma 1. -/
def bsig1 (x : Nat) : Nat := rotr 6 x ^^^ rotr 11 x ^^^ rotr 25 x

/-- SHA-256 small sigma 0. -/
def ssig0 (x : Nat) : Nat := rotr 7 x ^^^ rotr 18 x ^^^ x / 2 ^ 3

/-- SHA-256 small sigma 1. -/
def ssig1 (x : Nat) : Nat := rotr 17 x ^^^ rotr 19 x ^^^ x / 2 ^ 10

/-- SHA-256 round constants. -/
def K256 : List Nat :=
  [1116352408, 1899447441, 3049323471, 3921009573, 961987163, 1508970993, 2453635748, 2870763221,
   3624381080, 310598401, 607225278, 1426881987, 1925078388, 2162078206, 2614888103, 3248222580,
   3835390401, 4022224774, 264347078, 604807628, 770255983, 1249150122, 1555081692, 1996064986,
   2554220882, 2821834349, 2952996808, 3210313671, 3336571891, 3584528711, 113926993, 338241895,
   666307205, 773529912, 1294757372, 1396182291, 1695183700, 1986661051, 2177026350, 2456956037,
   2730485921, 2820302411, 3259730800, 3345764771, 3516065817, 3600352804, 4094571909, 275423344,
   430227734, 506948616, 659060556, 883997877, 958139571, 1322822218, 1537002063, 1747873779,
   1955562222, 2024104815, 2227730452, 2361852424, 2428436474, 2756734187, 3204031479, 3329325298]

/-- SHA-256 initial hash state. -/
def H256 : List Nat :=
  [1779033703, 3144134277, 1013904242, 2773480762, 1359893119, 2600822924, 528734635, 1541459225]

/-- Big-endian 8-byte rendering of the bit length for SHA-256 padding. -/
def be64 (n : Nat) : List Nat :=
  [n / 2 ^ 56 % 256, n / 2 ^ 48 % 256, n / 2 ^ 40 % 256, n / 2 ^ 32 % 256,
   n / 2 ^ 24 % 256, n / 2 ^ 16 % 256, n / 2 ^ 8 % 256, n % 256]

/-- SHA-256 message padding: append byte 0x80, zero bytes to 56 mod 64,
then the bit length in 8 big-endian bytes. -/
def sha256Pad (msg : List Nat) : List Nat :=
  msg ++ 128 :: (List.replicate ((119 - msg.length % 64) % 64) 0 ++ be64 (8 * msg.length))

/-- Split a byte list into 64-byte blocks. -/
def toBlocks (l : List Nat) : List (List Nat) :=
  if h : l = [] then [] else
    have : (l.drop 64).length < l.length := by
      have hp : 0 < l.length := List.length_pos.mpr h
      simp only [List.length_drop]
      omega
    l.take 64 :: toBlocks (l.drop 64)
termination_by l.length

/-- Big-endian 32-bit word number `i` of a block. -/
def be32At (b : List Nat) (i : Nat) : Nat :=
  b.getD (4 * i) 0 * 16777216 + b.getD (4 * i + 1) 0 * 65536 +
    b.getD (4 * i + 2) 0 * 256 + b.getD (4 * i + 3) 0

/-- One extension step of the SHA-256 message schedule. -/
def schedStep (w : List Nat) : List Nat :=
  w ++ [(ssig1 (w.getD (w.length - 2) 0) + w.getD (w.length - 7) 0 +
         ssig0 (w.getD (w.length - 15) 0) + w.getD (w.length - 16) 0) % 2 ^ 32]

/-- Iterate the message-schedule extension. -/
def buildSched (w : List Nat) : Nat → List Nat
  | 0 => w
  | n + 1 => buildSched (schedStep w) n

/-- One SHA-256 compression round on the eight-word working state. -/
def compressStep (st : List Nat) (kw : Nat × Nat) : List Nat :=
  match st with
  | [a, b, c, d, e, f, g, h] =>
    let t1 := (h + bsig1 e + sha2ch e f g + kw.1 + kw.2) % 2 ^ 32
    let t2 := (bsig0 a + sha2maj a b c) % 2 ^ 32
    [(t1 + t2) % 2 ^ 32, a, b, c, (d + t1) % 2 ^ 32, e, f, g]
  | _ => st

/-- Process one 64-byte block. -/
def sha256Block (h : List Nat) (block : List Nat) : List Nat :=
  let w := buildSched ((List.range 16).map (be32At block)) 48
  let st := (K256.zip w).foldl compressStep h
  (h.zip st).map (fun p => (p.1 + p.2) % 2 ^ 32)

/-- SHA-256 of a byte list, as a list of 32 bytes. -/
def sha256 (msg : List Nat) : List Nat :=
  ((toBlocks (sha256Pad msg)).foldl sha256Block H256).foldr
    (fun x acc => [x / 16777216 % 256, x / 65536 % 256, x / 256 % 256, x % 256] ++ acc) []

/-! ## Domain separation and signing (`sign_payload`, `DOMAIN_PREFIX`) -/

/-- Constant `DOMAIN_PREFIX` of scripts/test_signed_payload.py. -/
def DOMAIN_PREFIX_SIGNED : String := "onsocial:execute:v1"

/-- Constant `DOMAIN_PREFIX` of scripts/test_delegate_action.py. -/
def DOMAIN_PREFIX_DELEGATE : String := "onsocial:execute:delegate:v1"

/-- The signing domain for signed payloads (the f-string
interpolation of the prefix and the contract id). -/
def signedDomain (contractId : String) : String :=
  DOMAIN_PREFIX_SIGNED ++ ":" ++ contractId

/-- The signing domain for delegate actions. -/
def delegateDomain (contractId : String) : String :=
  DOMAIN_PREFIX_DELEGATE ++ ":" ++ contractId

/-- The exact byte string hashed for signing: domain bytes, one zero
byte, then the canonical payload bytes. -/
def signMessage (domain : String) (payloadBytes : List Nat) : List Nat :=
  utf8Bytes domain ++ 0 :: payloadBytes

/-- An ed25519 signature, idealized: PyNaCl is an external library, so
the primitive is modelled as binding the signing seed to the exact
message it was asked to sign. -/
structure Ed25519Sig where
  signerSeed : Nat
  signedMsg : List Nat
deriving DecidableEq

/-- Idealized `signing_key.sign`. -/
def edSign (seed : Nat) (m : List Nat) : Ed25519Sig := Ed25519Sig.mk seed m

/-- Function `sign_payload` from both scripts: sign the SHA-256 digest of
`domain ++ 0x00 ++ payload_json_bytes`. -/
def sign_payload (seed : Nat) (domain : String) (payloadBytes : List Nat) : Ed25519Sig :=
  edSign seed (sha256 (signMessage domain payloadBytes))

/-- The two authentication variants carried in `auth.type`. -/
inductive AuthType where
  | signedPayload : AuthType
  | delegateAction : AuthType
deriving DecidableEq

/-- Domain string a verifier derives from the auth type and its own
contract identity. -/
def authDomain : AuthType → String → String
  | .signedPayload, cid => signedDomain cid
  | .delegateAction, cid => delegateDomain cid

/-- Modelled from the spec: the contract-side verifier of
RequestAuthenticator is not under src (only the client scripts and
integration tests are).  Per the spec it recomputes the domain-separated
digest for its own contract id and auth type and verifies the ed25519
signature against it; the hash-then-sign pipeline is idealized as
binding the signature to the domain-separated message bytes (SHA-256
collisions are assumed away, as in any cryptographic treatment). -/
structure BoundSig where
  sigSeed : Nat
  boundMsg : List Nat
deriving DecidableEq

/-- Idealized signature creation over the domain-separated message. -/
def boundSign (seed : Nat) (domain : String) (payloadBytes : List Nat) : BoundSig :=
  BoundSig.mk seed (signMessage domain payloadBytes)

/-- Modelled from the spec: verification of a bound signature by a
verifier expecting a given auth type, contract id and payload. -/
def verifyBound (seed : Nat) (sig : BoundSig) (t : AuthType) (contractId : String)
    (payloadBytes : List Nat) : Bool :=
  decide (sig.sigSeed = seed) &&
    decide (sig.boundMsg = signMessage (authDomain t contractId) payloadBytes)

/-- A string made of nonzero ASCII code points (every realistic domain
string is one); such strings UTF-8-encode to themselves byte for byte
and contain no zero byte, which is what makes the 0x00 separator in
`signMessage` unambiguous. -/
def asciiNoNul (s : String) : Bool :=
  s.data.all (fun c => decide (0 < c.toNat) && decide (c.toNat < 128))

/-! ## PermissionRegistry (modelled from the spec) -/

/-- Modelled from the spec: the PermissionRegistry lives in the contract,
which is not under src (only the integration tests in test-core call
it).  A grant stores an ordered level (NONE=0, WRITE=1, MODERATE=2,
MANAGE=3) and an optional expiry timestamp; a grant past its expiry is
retained in storage but evaluates as level NONE. -/
structure Grant where
  level : Nat
  expiresAt : Option Nat
deriving DecidableEq

/-- Level constant NONE. -/
def levelNONE : Nat := 0

/-- Level constant WRITE. -/
def levelWRITE : Nat := 1

/-- Level constant MODERATE. -/
def levelMODERATE : Nat := 2

/-- Level constant MANAGE. -/
def levelMANAGE : Nat := 3

/-- A grant key: owner, grantee, and the path as its list of segments
(the result of splitting the slash-delimited path string on the slash). -/
abbrev PermKey := String × String × List String

/-- Modelled from the spec: the permission table, an exclusively owned
map from (owner, grantee, path) to the stored grant. -/
abbrev PermTable := List (PermKey × Grant)

/-- Lookup of the grant stored for an exact (owner, grantee, path) key. -/
def lookupGrant (tbl : PermTable) (k : PermKey) : Option Grant :=
  match tbl with
  | [] => none
  | e :: rest => if e.1 = k then some e.2 else lookupGrant rest k

/-- Remove the entry for a key (helper for overwrite semantics). -/
def erasePerm (tbl : PermTable) (k : PermKey) : PermTable :=
  tbl.filter (fun e => decide (e.1 ≠ k))

/-- Modelled from the spec: `grant`/`set_permission` overwrites any
existing grant for the exact (owner, grantee, path) tuple; level 0 as
the idiomatic revoke is the same overwrite. -/
def setPermission (tbl : PermTable) (owner grantee : String) (path : List String)
    (level : Nat) (expiresAt : Option Nat) : PermTable :=
  ((owner, grantee, path), Grant.mk level expiresAt) :: erasePerm tbl (owner, grantee, path)

/-- The nonempty prefixes of a segment list: the path itself and every
strict ancestor, i.e. the ancestor walk of the spec. -/
def prefixesNE : List String → List (List String)
  | [] => []
  | s :: rest => [s] :: (prefixesNE rest).map (fun p => s :: p)

/-- Level a single walk entry contributes now: the stored level if a
grant exists and is not expired, otherwise NONE. -/
def walkLevel (now : Nat) (tbl : PermTable) (owner grantee : String)
    (q : List String) : Nat :=
  match lookupGrant tbl (owner, grantee, q) with
  | some gr =>
      match gr.expiresAt with
      | none => gr.level
      | some t => if t < now then 0 else gr.level
  | none => 0

/-- Modelled from the spec: effective-level resolution takes the maximum
non-expired grant level across the path and all its strict ancestors. -/
def effectiveLevel (now : Nat) (tbl : PermTable) (owner grantee : String)
    (path : List String) : Nat :=
  (prefixesNE path).foldr (fun q acc => max (walkLevel now tbl owner grantee q) acc) 0

/-- Modelled from the spec: `check` compares the required level with the
effective level from the ancestor walk. -/
def checkPerm (now : Nat) (tbl : PermTable) (owner grantee : String)
    (path : List String) (required : Nat) : Bool :=
  decide (required ≤ effectiveLevel now tbl owner grantee path)

/-! ## GroupRegistry (modelled from the spec) -/

/-- Authorization errors of the error taxonomy in the spec. -/
inductive AuthorizationError where
  | insufficientLevel : AuthorizationError
  | notOwner : AuthorizationError
  | notMember : AuthorizationError
  | blacklisted : AuthorizationError
  | governanceRequired : AuthorizationError
deriving DecidableEq

/-- Modelled from the spec: the group record held by the GroupRegistry,
which lives in the contract and is not under src (only the test-core
integration tests exercise it). -/
structure Group where
  owner : String
  isPrivate : Bool
  memberDriven : Bool
  members : List String
  blacklist : List String
deriving DecidableEq

/-- Modelled from the spec: `create_group`; a member-driven group is
forced private at creation (the policy the deployed contract follows,
per test_member_driven_must_be_private), and the creator is the sole
initial member. -/
def createGroup (caller : String) (isPrivate memberDriven : Bool) : Group :=
  Group.mk caller (memberDriven || isPrivate) memberDriven [caller] []

/-- Modelled from the spec: `set_group_privacy` requires ownership and is
always rejected with GovernanceRequired on a member-driven group. -/
def setGroupPrivacy (caller : String) (g : Group) (newPrivate : Bool) :
    Except AuthorizationError Group :=
  if g.memberDriven then .error .governanceRequired
  else if caller ≠ g.owner then .error .notOwner
  else .ok (Group.mk g.owner newPrivate g.memberDriven g.members g.blacklist)

/-- Modelled from the spec: direct `transfer_group_ownership` requires
ownership, rejects a non-member, the caller itself, or a blacklisted
target, and is always rejected with GovernanceRequired on a
member-driven group. -/
def transferGroupOwnership (caller : String) (g : Group) (newOwner : String) :
    Except AuthorizationError Group :=
  if g.memberDriven then .error .governanceRequired
  else if caller ≠ g.owner then .error .notOwner
  else if newOwner = caller then .error .notOwner
  else if newOwner ∈ g.blacklist then .error .blacklisted
  else if newOwner ∉ g.members then .error .notMember
  else .ok (Group.mk newOwner g.isPrivate g.memberDriven g.members g.blacklist)

/-- Modelled from the spec: ownership change applied by a passed
governance proposal (same effect entry point, authorization bypassed
because passage of the vote is the authorization). -/
def govTransferOwnership (g : Group) (newOwner : String) : Group :=
  Group.mk newOwner g.isPrivate g.memberDriven g.members g.blacklist

/-- Modelled from the spec: membership added by a passed member-invite
proposal. -/
def govAddMember (g : Group) (m : String) : Group :=
  Group.mk g.owner g.isPrivate g.memberDriven (m :: g.members) g.blacklist

/-- The group operations reachable states are closed under: the direct
calls (which keep the state unchanged when they fail) and the
governance-executed effects. -/
inductive GroupOp where
  | directSetPrivacy : String → Bool → GroupOp
  | directTransfer : String → String → GroupOp
  | govTransfer : String → GroupOp
  | govInvite : String → GroupOp

/-- Apply one group operation; a failing direct call leaves the group
unchanged (errors abort the whole request without partial commits). -/
def applyGroupOp (g : Group) : GroupOp → Group
  | .directSetPrivacy c p =>
      match setGroupPrivacy c g p with
      | .ok g2 => g2
      | .error _ => g
  | .directTransfer c n =>
      match transferGroupOwnership c g n with
      | .ok g2 => g2
      | .error _ => g
  | .govTransfer n => govTransferOwnership g n
  | .govInvite m => govAddMember g m

/-- States reachable from a starting group state by any sequence of
group operations. -/
inductive ReachableGroup (g0 : Group) : Group → Prop where
  | refl : ReachableGroup g0 g0
  | step (g : Group) (op : GroupOp) : ReachableGroup g0 g → ReachableGroup g0 (applyGroupOp g op)

/-! ## ProposalEngine (modelled from the spec) -/

/-- Proposal lifecycle states. -/
inductive ProposalStatus where
  | active : ProposalStatus
  | executed : ProposalStatus
  | rejected : ProposalStatus
  | cancelled : ProposalStatus
deriving DecidableEq

/-- Governance errors of the error taxonomy in the spec (NotMember reuses the
authorization taxonomy in the spec; it is inlined here so that
`voteOnProposal` has a single error type). -/
inductive GovernanceError where
  | quorumNotMet : GovernanceError
  | alreadyVoted : GovernanceError
  | proposalTerminal : GovernanceError
  | proposalNotFound : GovernanceError
  | voterNotMember : GovernanceError
deriving DecidableEq

/-- The proposal payloads needed here: a custom proposal (no on-chain
side effect), an ownership transfer, a member invite. -/
inductive ProposalAction where
  | custom : ProposalAction
  | transferOwner : String → ProposalAction
  | invite : String → ProposalAction
deriving DecidableEq

/-- Quorum and threshold parameters in basis points. -/
structure VotingConfig where
  approvalThresholdBps : Nat
  participationQuorumBps : Nat
deriving DecidableEq

/-- Modelled from the spec: a proposal with its creation-time membership
snapshot (`locked_member_count`) and the recorded votes. -/
structure Proposal where
  proposer : String
  action : ProposalAction
  status : ProposalStatus
  lockedMemberCount : Nat
  votes : List (String × Bool)
deriving DecidableEq

/-- Number of approving votes. -/
def yesVotes (p : Proposal) : Nat := (p.votes.filter (fun v => v.2)).length

/-- Number of votes cast. -/
def totalVotes (p : Proposal) : Nat := p.votes.length

/-- Modelled from the spec: the pass condition
`yes / locked ≥ approval_bps ∧ total / locked ≥ quorum_bps`, stated over
the integers by cross-multiplying with the 10000 bps denominator. -/
def passCondition (cfg : VotingConfig) (p : Proposal) : Bool :=
  decide (cfg.approvalThresholdBps * p.lockedMemberCount ≤ yesVotes p * 10000) &&
    decide (cfg.participationQuorumBps * p.lockedMemberCount ≤ totalVotes p * 10000)

/-- The best yes count still achievable if every member who has not voted
yet votes yes. -/
def maxPossibleYes (p : Proposal) : Nat :=
  yesVotes p + (p.lockedMemberCount - totalVotes p)

/-- Modelled from the spec: early rejection as soon as the maximum
achievable yes-ratio cannot reach the approval threshold. -/
def earlyRejectCondition (cfg : VotingConfig) (p : Proposal) : Bool :=
  decide (maxPossibleYes p * 10000 < cfg.approvalThresholdBps * p.lockedMemberCount)

/-- Modelled from the spec: the status a proposal settles into after a
vote is recorded. -/
def evaluateProposal (cfg : VotingConfig) (p : Proposal) : ProposalStatus :=
  if passCondition cfg p then .executed
  else if earlyRejectCondition cfg p then .rejected
  else .active

/-- Append a vote to the record. -/
def recordVote (p : Proposal) (voter : String) (approve : Bool) : Proposal :=
  Proposal.mk p.proposer p.action p.status p.lockedMemberCount (p.votes ++ [(voter, approve)])

/-- Replace the status of a proposal. -/
def withStatus (p : Proposal) (st : ProposalStatus) : Proposal :=
  Proposal.mk p.proposer p.action st p.lockedMemberCount p.votes

/-- Apply the payload of a passed proposal through the same entry points a
directly authorized call would use. -/
def applyProposalAction (g : Group) : ProposalAction → Group
  | .custom => g
  | .transferOwner n => govTransferOwnership g n
  | .invite m => govAddMember g m

/-- Modelled from the spec: `vote_on_proposal` - the caller must be a
current member, must not have voted, and the proposal must be Active;
the vote is recorded, the proposal re-evaluated, and on execution the
mutation is applied in the same atomic step. -/
def voteOnProposal (cfg : VotingConfig) (grp : Group) (p : Proposal)
    (voter : String) (approve : Bool) : Except GovernanceError (Group × Proposal) :=
  if p.status ≠ .active then .error .proposalTerminal
  else if voter ∉ grp.members then .error .voterNotMember
  else if voter ∈ p.votes.map Prod.fst then .error .alreadyVoted
  else
    let p2 := recordVote p voter approve
    let st := evaluateProposal cfg p2
    if st = .executed then .ok (applyProposalAction grp p.action, withStatus p2 .executed)
    else .ok (grp, withStatus p2 st)

/-! ## Helper lemmas for the JSON model -/

theorem sizeOf_snd_lt_of_mem {kvs : List (String × Json)} {kv : String × Json}
    (h : kv ∈ kvs) : sizeOf kv.2 < sizeOf kvs := by
  have h1 : sizeOf kv < sizeOf kvs := List.sizeOf_lt_of_mem h
  obtain ⟨a, b⟩ := kv
  simp only [Prod.mk.sizeOf_spec] at h1 ⊢
  omega

/-- Member-wise induction principle for the nested inductive `Json`. -/
theorem Json.recMem {P : Json → Prop}
    (hnull : P .null) (hbool : ∀ b, P (.bool b)) (hnum : ∀ n, P (.num n))
    (hstr : ∀ s, P (.str s))
    (harr : ∀ xs : List Json, (∀ x ∈ xs, P x) → P (.arr xs))
    (hobj : ∀ kvs : List (String × Json), (∀ kv ∈ kvs, P kv.2) → P (.obj kvs)) :
    ∀ j, P j
  | .null => hnull
  | .bool b => hbool b
  | .num n => hnum n
  | .str s => hstr s
  | .arr xs => harr xs (fun x hx =>
      have : sizeOf x < 1 + sizeOf xs := by
        have := List.sizeOf_lt_of_mem hx
        omega
      Json.recMem hnull hbool hnum hstr harr hobj x)
  | .obj kvs => hobj kvs (fun kv hkv =>
      have : sizeOf kv.2 < 1 + sizeOf kvs := by
        have := sizeOf_snd_lt_of_mem hkv
        omega
      Json.recMem hnull hbool hnum hstr harr hobj kv.2)
termination_by j => sizeOf j

theorem canonList_eq_map (xs : List Json) :
    canonList xs = xs.map canonicalize_json := by
  induction xs with
  | nil => rfl
  | cons x xs ih => simp [canonList, ih]

theorem canonKvs_eq_map (kvs : List (String × Json)) :
    canonKvs kvs = kvs.map (fun kv => (kv.1, canonicalize_json kv.2)) := by
  induction kvs with
  | nil => rfl
  | cons kv rest ih => simp [canonKvs, ih]

theorem build_payload_delegate_eq (target pk : String) (nonce expiresAtMs : Nat)
    (action delegate : Json) :
    build_payload_delegate target pk nonce expiresAtMs action delegate
      = build_payload target pk nonce expiresAtMs action (some delegate) := rfl

theorem insertByKey_perm (kv : String × Json) (l : List (String × Json)) :
    List.Perm (insertByKey kv l) (kv :: l) := by
  induction l with
  | nil => exact List.Perm.refl _
  | cons kv2 rest ih =>
    simp only [insertByKey]
    by_cases h : kv.1 ≤ kv2.1
    · rw [if_pos h]
    · rw [if_neg h]
      exact List.Perm.trans (List.Perm.cons kv2 ih) (List.Perm.swap kv kv2 rest)

theorem sortByKey_perm (l : List (String × Json)) : List.Perm (sortByKey l) l := by
  induction l with
  | nil => exact List.Perm.refl _
  | cons kv rest ih =>
    exact List.Perm.trans (insertByKey_perm kv (sortByKey rest)) (List.Perm.cons kv ih)

theorem insertByKey_sorted (kv : String × Json) (l : List (String × Json))
    (h : List.Pairwise keyLe l) : List.Pairwise keyLe (insertByKey kv l) := by
  induction l with
  | nil => simp [insertByKey, List.pairwise_cons]
  | cons kv2 rest ih =>
    simp only [insertByKey]
    by_cases hle : kv.1 ≤ kv2.1
    · rw [if_pos hle]
      refine List.Pairwise.cons ?_ h
      intro x hx
      rcases List.mem_cons.mp hx with rfl | hx2
      · exact hle
      · exact le_trans hle (List.rel_of_pairwise_cons h hx2)
    · rw [if_neg hle]
      have hk2 : kv2.1 ≤ kv.1 := le_of_not_le hle
      obtain ⟨hhead, htail⟩ := List.pairwise_cons.mp h
      refine List.Pairwise.cons ?_ (ih htail)
      intro x hx
      have hx3 := (insertByKey_perm kv rest).mem_iff.mp hx
      rcases List.mem_cons.mp hx3 with rfl | hx2
      · exact hk2
      · exact hhead x hx2

theorem sortByKey_sorted (l : List (String × Json)) :
    List.Pairwise keyLe (sortByKey l) := by
  induction l with
  | nil => exact List.Pairwise.nil
  | cons kv rest ih => exact insertByKey_sorted kv (sortByKey rest) ih

theorem sortByKey_of_sorted (l : List (String × Json))
    (h : List.Pairwise keyLe l) : sortByKey l = l := by
  induction l with
  | nil => rfl
  | cons kv rest ih =>
    obtain ⟨hhead, htail⟩ := List.pairwise_cons.mp h
    rw [sortByKey, ih htail]
    cases rest with
    | nil => rfl
    | cons kv2 rest2 =>
      simp only [insertByKey]
      have hle : kv.1 ≤ kv2.1 := hhead kv2 (List.mem_cons_self _ _)
      rw [if_pos hle]

theorem canonKvs_of_values_fixed (l : List (String × Json))
    (h : ∀ kv ∈ l, canonicalize_json kv.2 = kv.2) : canonKvs l = l := by
  induction l with
  | nil => rfl
  | cons kv rest ih =>
    rw [canonKvs, h kv (List.mem_cons_self _ _),
      ih (fun x hx => h x (List.mem_cons_of_mem _ hx))]

theorem canonicalize_json_idem (j : Json) :
    canonicalize_json (canonicalize_json j) = canonicalize_json j := by
  induction j using Json.recMem with
  | hnull => rfl
  | hbool b => rfl
  | hnum n => rfl
  | hstr s => rfl
  | harr xs ih =>
    simp only [canonicalize_json, canonList_eq_map, List.map_map]
    congr 1
    apply List.map_congr_left
    intro x hx
    exact ih x hx
  | hobj kvs ih =>
    simp only [canonicalize_json]
    congr 1
    have hfix : ∀ kv ∈ sortByKey (canonKvs kvs), canonicalize_json kv.2 = kv.2 := by
      intro kv hkv
      have hmem : kv ∈ canonKvs kvs := (sortByKey_perm (canonKvs kvs)).mem_iff.mp hkv
      rw [canonKvs_eq_map] at hmem
      rcases List.mem_map.mp hmem with ⟨kv0, hkv0, rfl⟩
      exact ih kv0 hkv0
    rw [canonKvs_of_values_fixed _ hfix, sortByKey_of_sorted _ (sortByKey_sorted _)]

/-- C10: `canonicalize_json` is idempotent, maps arrays elementwise
(preserving length and element order), and leaves every scalar
unchanged. -/
theorem C10_canonicalize_idempotent :
    (∀ v : Json, canonicalize_json (canonicalize_json v) = canonicalize_json v) ∧
    (∀ xs : List Json,
      canonicalize_json (.arr xs) = .arr (xs.map canonicalize_json) ∧
      (xs.map canonicalize_json).length = xs.length) ∧
    canonicalize_json .null = .null ∧
    (∀ b : Bool, canonicalize_json (.bool b) = .bool b) ∧
    (∀ n : Int, canonicalize_json (.num n) = .num n) ∧
    (∀ s : String, canonicalize_json (.str s) = .str s) :=
  ⟨canonicalize_json_idem,
    fun xs => ⟨by simp [canonicalize_json, canonList_eq_map], List.length_map xs _⟩,
    rfl, fun _ => rfl, fun _ => rfl, fun _ => rfl⟩

theorem lookupKey_eq_none_iff (k : String) (l : List (String × Json)) :
    lookupKey k l = none ↔ k ∉ l.map Prod.fst := by
  induction l with
  | nil => simp [lookupKey]
  | cons kv rest ih =>
    simp only [lookupKey, List.map_cons, List.mem_cons]
    by_cases h : kv.1 = k
    · simp [h]
    · have h2 : ¬ (k = kv.1) := fun hc => h hc.symm
      simp [h, h2, ih]

theorem mem_of_lookupKey_some {k : String} {v : Json} {l : List (String × Json)}
    (h : lookupKey k l = some v) : (k, v) ∈ l := by
  induction l with
  | nil => cases h
  | cons kv rest ih =>
    simp only [lookupKey] at h
    by_cases hk : kv.1 = k
    · rw [if_pos hk] at h
      injection h with h2
      apply List.mem_cons.mpr
      left
      subst hk
      subst h2
      exact Prod.mk.eta.symm
    · rw [if_neg hk] at h
      exact List.mem_cons_of_mem _ (ih h)

theorem lookupKey_some_of_mem {k : String} {v : Json} {l : List (String × Json)}
    (hmem : (k, v) ∈ l) (hnd : (l.map Prod.fst).Nodup) : lookupKey k l = some v := by
  induction l with
  | nil => cases hmem
  | cons kv rest ih =>
    simp only [List.map_cons, List.nodup_cons] at hnd
    obtain ⟨hnotin, hnd2⟩ := hnd
    rcases List.mem_cons.mp hmem with heq | hmem2
    · rw [← heq]
      simp [lookupKey]
    · have hk : kv.1 ≠ k := by
        intro hc
        apply hnotin
        rw [hc]
        exact List.mem_map.mpr ⟨(k, v), hmem2, rfl⟩
      simp only [lookupKey, if_neg hk]
      exact ih hmem2 hnd2

theorem lookupKey_mem_keys {k : String} {v : Json} {l : List (String × Json)}
    (h : lookupKey k l = some v) : k ∈ l.map Prod.fst :=
  List.mem_map.mpr ⟨(k, v), mem_of_lookupKey_some h, rfl⟩

theorem lookupKey_perm {l1 l2 : List (String × Json)} (hperm : List.Perm l1 l2)
    (hnd : (l1.map Prod.fst).Nodup) (k : String) :
    lookupKey k l1 = lookupKey k l2 := by
  have hnd2 : (l2.map Prod.fst).Nodup := ((hperm.map Prod.fst).nodup_iff).mp hnd
  cases hl : lookupKey k l1 with
  | some v =>
    exact (lookupKey_some_of_mem (hperm.mem_iff.mp (mem_of_lookupKey_some hl)) hnd2).symm
  | none =>
    have hk1 := (lookupKey_eq_none_iff k l1).mp hl
    have hk2 : k ∉ l2.map Prod.fst := fun hc => hk1 ((hperm.map Prod.fst).mem_iff.mpr hc)
    exact ((lookupKey_eq_none_iff k l2).mpr hk2).symm

theorem nodup_keys_of_nodupKeysB {l : List (String × Json)} (h : nodupKeysB l = true) :
    (l.map Prod.fst).Nodup := by
  induction l with
  | nil => simp
  | cons kv rest ih =>
    simp only [nodupKeysB, Bool.and_eq_true, Option.isNone_iff_eq_none] at h
    obtain ⟨h1, h2⟩ := h
    simp only [List.map_cons, List.nodup_cons]
    exact ⟨(lookupKey_eq_none_iff kv.1 rest).mp h1, ih h2⟩

theorem pairwise_keyLt (l : List (String × Json)) (hs : List.Pairwise keyLe l)
    (hnd : (l.map Prod.fst).Nodup) :
    List.Pairwise (fun a b : String × Json => a.1 < b.1) l := by
  have hne : List.Pairwise (fun a b : String × Json => a.1 ≠ b.1) l :=
    List.pairwise_map.mp hnd
  exact (hs.and hne).imp (fun h => lt_of_le_of_ne h.1 h.2)

theorem not_mem_keys_of_pairwise_lt {kv : String × Json} {t : List (String × Json)}
    (h : List.Pairwise (fun a b : String × Json => a.1 < b.1) (kv :: t)) :
    kv.1 ∉ t.map Prod.fst := by
  intro hc
  rcases List.mem_map.mp hc with ⟨x, hx, hx2⟩
  have hlt := List.rel_of_pairwise_cons h hx
  rw [hx2] at hlt
  exact lt_irrefl _ hlt

theorem sorted_lookup_ext : ∀ l1 l2 : List (String × Json),
    List.Pairwise (fun a b : String × Json => a.1 < b.1) l1 →
    List.Pairwise (fun a b : String × Json => a.1 < b.1) l2 →
    (∀ k, lookupKey k l1 = lookupKey k l2) → l1 = l2
  | [], [], _, _, _ => rfl
  | [], kv :: t2, _, _, hlook => by
    have hv := hlook kv.1
    simp [lookupKey] at hv
  | kv :: t1, [], _, _, hlook => by
    have hv := hlook kv.1
    simp [lookupKey] at hv
  | kv1 :: t1, kv2 :: t2, h1, h2, hlook => by
    have hkey : kv1.1 = kv2.1 := by
      rcases lt_trichotomy kv1.1 kv2.1 with hlt | heq | hgt
      · exfalso
        have hv := hlook kv1.1
        rw [show lookupKey kv1.1 (kv1 :: t1) = some kv1.2 from by simp [lookupKey]] at hv
        rw [show lookupKey kv1.1 (kv2 :: t2) = lookupKey kv1.1 t2 from by
          simp only [lookupKey]
          rw [if_neg (show ¬ (kv2.1 = kv1.1) from fun hc => by
            rw [hc] at hlt
            exact lt_irrefl _ hlt)]] at hv
        have hnone : lookupKey kv1.1 t2 = none := by
          apply (lookupKey_eq_none_iff _ _).mpr
          intro hc
          rcases List.mem_map.mp hc with ⟨x, hx, hx2⟩
          have hl2 := List.rel_of_pairwise_cons h2 hx
          rw [hx2] at hl2
          exact lt_asymm hlt hl2
        rw [hnone] at hv
        cases hv
      · exact heq
      · exfalso
        have hv := hlook kv2.1
        rw [show lookupKey kv2.1 (kv2 :: t2) = some kv2.2 from by simp [lookupKey]] at hv
        rw [show lookupKey kv2.1 (kv1 :: t1) = lookupKey kv2.1 t1 from by
          simp only [lookupKey]
          rw [if_neg (show ¬ (kv1.1 = kv2.1) from fun hc => by
            rw [hc] at hgt
            exact lt_irrefl _ hgt)]] at hv
        have hnone : lookupKey kv2.1 t1 = none := by
          apply (lookupKey_eq_none_iff _ _).mpr
          intro hc
          rcases List.mem_map.mp hc with ⟨x, hx, hx2⟩
          have hl1 := List.rel_of_pairwise_cons h1 hx
          rw [hx2] at hl1
          exact lt_asymm hgt hl1
        rw [hnone] at hv
        cases hv
    have hval : kv1.2 = kv2.2 := by
      have hv := hlook kv1.1
      rw [show lookupKey kv1.1 (kv1 :: t1) = some kv1.2 from by simp [lookupKey]] at hv
      rw [show lookupKey kv1.1 (kv2 :: t2) = some kv2.2 from by
        simp only [lookupKey]
        rw [if_pos hkey.symm]] at hv
      injection hv
    have htails : ∀ k, lookupKey k t1 = lookupKey k t2 := by
      intro k
      by_cases hk : k = kv1.1
      · subst hk
        rw [(lookupKey_eq_none_iff _ _).mpr (not_mem_keys_of_pairwise_lt h1),
          (lookupKey_eq_none_iff _ _).mpr (hkey ▸ not_mem_keys_of_pairwise_lt h2)]
      · have hv := hlook k
        simp only [lookupKey] at hv
        rw [if_neg (fun hc => hk hc.symm),
          if_neg (fun hc => hk (hc.symm.trans hkey.symm))] at hv
        exact hv
    have hrec := sorted_lookup_ext t1 t2 (List.pairwise_cons.mp h1).2
      (List.pairwise_cons.mp h2).2 htails
    rw [hrec]
    congr 1
    exact Prod.ext hkey hval

theorem lookupKey_canonKvs (k : String) (l : List (String × Json)) :
    lookupKey k (canonKvs l) = (lookupKey k l).map canonicalize_json := by
  induction l with
  | nil => rfl
  | cons kv rest ih =>
    simp only [canonKvs, lookupKey]
    by_cases h : kv.1 = k
    · rw [if_pos h, if_pos h]
      rfl
    · rw [if_neg h, if_neg h]
      exact ih

theorem canonKvs_keys (l : List (String × Json)) :
    (canonKvs l).map Prod.fst = l.map Prod.fst := by
  rw [canonKvs_eq_map, List.map_map]
  rfl

theorem mapEquivLookup_spec {l1 l2 : List (String × Json)}
    (h : mapEquivLookup l1 l2 = true) :
    ∀ kv ∈ l1, ∃ w, lookupKey kv.1 l2 = some w ∧ mapEquivB kv.2 w = true := by
  induction l1 with
  | nil =>
    intro kv hkv
    cases hkv
  | cons kv0 rest ih =>
    simp only [mapEquivLookup, Bool.and_eq_true] at h
    obtain ⟨h1, h2⟩ := h
    intro kv hkv
    rcases List.mem_cons.mp hkv with rfl | hmem
    · cases hl : lookupKey kv.1 l2 with
      | some w =>
        simp only [hl] at h1
        exact ⟨w, rfl, h1⟩
      | none =>
        simp only [hl] at h1
        cases h1
    · exact ih h2 kv hmem

theorem mapEquivList_map_canon : ∀ xs ys : List Json,
    (∀ x ∈ xs, ∀ y : Json, mapEquivB x y = true →
      canonicalize_json x = canonicalize_json y) →
    mapEquivList xs ys = true →
    xs.map canonicalize_json = ys.map canonicalize_json
  | [], [], _, _ => rfl
  | [], y :: ys, _, h => by simp [mapEquivList] at h
  | x :: xs, [], _, h => by simp [mapEquivList] at h
  | x :: xs, y :: ys, hI, h => by
    simp only [mapEquivList, Bool.and_eq_true] at h
    simp only [List.map_cons]
    rw [hI x (List.mem_cons_self _ _) y h.1,
      mapEquivList_map_canon xs ys (fun z hz => hI z (List.mem_cons_of_mem _ hz)) h.2]

theorem mapEquivObj_canon (kvs kvs2 : List (String × Json))
    (hI : ∀ kv ∈ kvs, ∀ w : Json, mapEquivB kv.2 w = true →
      canonicalize_json kv.2 = canonicalize_json w)
    (hnd1 : nodupKeysB kvs = true) (hnd2 : nodupKeysB kvs2 = true)
    (hlen : kvs.length = kvs2.length)
    (hlk : mapEquivLookup kvs kvs2 = true) :
    sortByKey (canonKvs kvs) = sortByKey (canonKvs kvs2) := by
  have hn1 := nodup_keys_of_nodupKeysB hnd1
  have hn2 := nodup_keys_of_nodupKeysB hnd2
  have hsub : kvs.map Prod.fst ⊆ kvs2.map Prod.fst := by
    intro k hk
    rcases List.mem_map.mp hk with ⟨kv, hkv, rfl⟩
    obtain ⟨w, hw, -⟩ := mapEquivLookup_spec hlk kv hkv
    exact lookupKey_mem_keys hw
  have hkeysperm : List.Perm (kvs.map Prod.fst) (kvs2.map Prod.fst) := by
    apply List.Subperm.perm_of_length_le (List.Nodup.subperm hn1 hsub)
    simp [hlen]
  have hlook : ∀ k, lookupKey k (canonKvs kvs) = lookupKey k (canonKvs kvs2) := by
    intro k
    rw [lookupKey_canonKvs, lookupKey_canonKvs]
    cases hl : lookupKey k kvs with
    | some v =>
      have hmem := mem_of_lookupKey_some hl
      obtain ⟨w, hw, hequiv⟩ := mapEquivLookup_spec hlk (k, v) hmem
      rw [hw]
      show some (canonicalize_json v) = some (canonicalize_json w)
      rw [hI (k, v) hmem w hequiv]
    | none =>
      have hk1 := (lookupKey_eq_none_iff k kvs).mp hl
      have hk2 : k ∉ kvs2.map Prod.fst := fun hc => hk1 (hkeysperm.mem_iff.mpr hc)
      rw [(lookupKey_eq_none_iff k kvs2).mpr hk2]
  have hcn1 : ((canonKvs kvs).map Prod.fst).Nodup := by
    rw [canonKvs_keys]
    exact hn1
  have hcn2 : ((canonKvs kvs2).map Prod.fst).Nodup := by
    rw [canonKvs_keys]
    exact hn2
  have hs1 : ((sortByKey (canonKvs kvs)).map Prod.fst).Nodup :=
    (((sortByKey_perm (canonKvs kvs)).map Prod.fst).nodup_iff).mpr hcn1
  have hs2 : ((sortByKey (canonKvs kvs2)).map Prod.fst).Nodup :=
    (((sortByKey_perm (canonKvs kvs2)).map Prod.fst).nodup_iff).mpr hcn2
  apply sorted_lookup_ext _ _
    (pairwise_keyLt _ (sortByKey_sorted (canonKvs kvs)) hs1)
    (pairwise_keyLt _ (sortByKey_sorted (canonKvs kvs2)) hs2)
  intro k
  rw [lookupKey_perm (sortByKey_perm (canonKvs kvs)) hs1 k,
    lookupKey_perm (sortByKey_perm (canonKvs kvs2)) hs2 k]
  exact hlook k

theorem mapEquivB_canon : ∀ a b : Json,
    mapEquivB a b = true → canonicalize_json a = canonicalize_json b := by
  intro a
  induction a using Json.recMem with
  | hnull =>
    intro b hb
    cases b with
    | null => rfl
    | bool b2 => simp [mapEquivB] at hb
    | num n2 => simp [mapEquivB] at hb
    | str s2 => simp [mapEquivB] at hb
    | arr xs2 => simp [mapEquivB] at hb
    | obj kvs2 => simp [mapEquivB] at hb
  | hbool b1 =>
    intro b hb
    cases b with
    | bool b2 =>
      simp only [mapEquivB, decide_eq_true_eq] at hb
      rw [hb]
    | null => simp [mapEquivB] at hb
    | num n2 => simp [mapEquivB] at hb
    | str s2 => simp [mapEquivB] at hb
    | arr xs2 => simp [mapEquivB] at hb
    | obj kvs2 => simp [mapEquivB] at hb
  | hnum n1 =>
    intro b hb
    cases b with
    | num n2 =>
      simp only [mapEquivB, decide_eq_true_eq] at hb
      rw [hb]
    | null => simp [mapEquivB] at hb
    | bool b2 => simp [mapEquivB] at hb
    | str s2 => simp [mapEquivB] at hb
    | arr xs2 => simp [mapEquivB] at hb
    | obj kvs2 => simp [mapEquivB] at hb
  | hstr s1 =>
    intro b hb
    cases b with
    | str s2 =>
      simp only [mapEquivB, decide_eq_true_eq] at hb
      rw [hb]
    | null => simp [mapEquivB] at hb
    | bool b2 => simp [mapEquivB] at hb
    | num n2 => simp [mapEquivB] at hb
    | arr xs2 => simp [mapEquivB] at hb
    | obj kvs2 => simp [mapEquivB] at hb
  | harr xs ih =>
    intro b hb
    cases b with
    | arr ys =>
      have hl : mapEquivList xs ys = true := by simpa [mapEquivB] using hb
      simp only [canonicalize_json, canonList_eq_map]
      rw [mapEquivList_map_canon xs ys ih hl]
    | null => simp [mapEquivB] at hb
    | bool b2 => simp [mapEquivB] at hb
    | num n2 => simp [mapEquivB] at hb
    | str s2 => simp [mapEquivB] at hb
    | obj kvs2 => simp [mapEquivB] at hb
  | hobj kvs ih =>
    intro b hb
    cases b with
    | obj kvs2 =>
      simp only [mapEquivB, Bool.and_eq_true, decide_eq_true_eq] at hb
      obtain ⟨⟨⟨hnd1, hnd2⟩, hlen⟩, hlk⟩ := hb
      simp only [canonicalize_json]
      rw [mapEquivObj_canon kvs kvs2 ih hnd1 hnd2 hlen hlk]
    | null => simp [mapEquivB] at hb
    | bool b2 => simp [mapEquivB] at hb
    | num n2 => simp [mapEquivB] at hb
    | str s2 => simp [mapEquivB] at hb
    | arr xs2 => simp [mapEquivB] at hb

theorem isCanonList_of_forall {xs : List Json} (h : ∀ x ∈ xs, isCanonB x = true) :
    isCanonList xs = true := by
  induction xs with
  | nil => rfl
  | cons x rest ih =>
    simp only [isCanonList, Bool.and_eq_true]
    exact ⟨h x (List.mem_cons_self _ _), ih (fun z hz => h z (List.mem_cons_of_mem _ hz))⟩

theorem isCanonKvs_of_forall {l : List (String × Json)}
    (h : ∀ kv ∈ l, isCanonB kv.2 = true) : isCanonKvs l = true := by
  induction l with
  | nil => rfl
  | cons kv rest ih =>
    simp only [isCanonKvs, Bool.and_eq_true]
    exact ⟨h kv (List.mem_cons_self _ _), ih (fun z hz => h z (List.mem_cons_of_mem _ hz))⟩

theorem keysSortedB_of_pairwise {l : List (String × Json)}
    (h : List.Pairwise keyLe l) : keysSortedB l = true := by
  induction l with
  | nil => rfl
  | cons kv rest ih =>
    obtain ⟨hhead, htail⟩ := List.pairwise_cons.mp h
    cases rest with
    | nil => rfl
    | cons kv2 rest2 =>
      simp only [keysSortedB, Bool.and_eq_true, decide_eq_true_eq]
      exact ⟨hhead kv2 (List.mem_cons_self _ _), ih htail⟩

theorem isCanonB_canon (j : Json) : isCanonB (canonicalize_json j) = true := by
  induction j using Json.recMem with
  | hnull => rfl
  | hbool b => rfl
  | hnum n => rfl
  | hstr s => rfl
  | harr xs ih =>
    simp only [canonicalize_json]
    show isCanonList (canonList xs) = true
    apply isCanonList_of_forall
    intro x hx
    rw [canonList_eq_map] at hx
    rcases List.mem_map.mp hx with ⟨x0, hx0, rfl⟩
    exact ih x0 hx0
  | hobj kvs ih =>
    simp only [canonicalize_json]
    show (keysSortedB (sortByKey (canonKvs kvs)) &&
      isCanonKvs (sortByKey (canonKvs kvs))) = true
    rw [Bool.and_eq_true]
    refine ⟨keysSortedB_of_pairwise (sortByKey_sorted _), ?_⟩
    apply isCanonKvs_of_forall
    intro kv hkv
    have hmem : kv ∈ canonKvs kvs := (sortByKey_perm _).mem_iff.mp hkv
    rw [canonKvs_eq_map] at hmem
    rcases List.mem_map.mp hmem with ⟨kv0, hkv0, rfl⟩
    exact ih kv0 hkv0

/-- C1: the canonical payload keeps its six top-level keys in the fixed,
non-alphabetical order; the action and delegate_action values are
recursively key-sorted; and two payloads whose action and
delegate_action inputs are equal as maps serialize to byte-identical
canonical encodings regardless of input key order. -/
theorem C1_canonical_payload_bytes (t pk : String) (n e : Nat)
    (a a2 d d2 : Json) (ha : mapEquivB a a2 = true) (hd : mapEquivB d d2 = true) :
    (payloadFields (build_payload t pk n e a (some d))).map Prod.fst
      = ["target_account", "public_key", "nonce", "expires_at_ms", "action",
         "delegate_action"] ∧
    lookupKey "action" (payloadFields (build_payload t pk n e a (some d)))
      = some (canonicalize_json a) ∧
    lookupKey "delegate_action" (payloadFields (build_payload t pk n e a (some d)))
      = some (canonicalize_json d) ∧
    isCanonB (canonicalize_json a) = true ∧
    isCanonB (canonicalize_json d) = true ∧
    dumpsBytes (build_payload t pk n e a (some d))
      = dumpsBytes (build_payload t pk n e a2 (some d2)) := by
  refine ⟨rfl, rfl, rfl, isCanonB_canon a, isCanonB_canon d, ?_⟩
  simp only [build_payload]
  rw [mapEquivB_canon a a2 ha, mapEquivB_canon d d2 hd]

/-- C1 witness: the same two maps given with their keys in opposite
orders produce byte-identical canonical payloads. -/
theorem C1_canonical_payload_bytes_witness :
    mapEquivB (Json.obj [("type", .str "set"), ("data", .obj [("b", .num 1), ("a", .null)])])
        (Json.obj [("data", .obj [("a", .null), ("b", .num 1)]), ("type", .str "set")]) = true ∧
    mapEquivB (Json.obj [("y", .bool true), ("x", .str "v")])
        (Json.obj [("x", .str "v"), ("y", .bool true)]) = true ∧
    ((payloadFields (build_payload "t" "k" 1 2
        (Json.obj [("type", .str "set"), ("data", .obj [("b", .num 1), ("a", .null)])])
        (some (Json.obj [("y", .bool true), ("x", .str "v")])))).map Prod.fst
       = ["target_account", "public_key", "nonce", "expires_at_ms", "action",
          "delegate_action"] ∧
     lookupKey "action" (payloadFields (build_payload "t" "k" 1 2
        (Json.obj [("type", .str "set"), ("data", .obj [("b", .num 1), ("a", .null)])])
        (some (Json.obj [("y", .bool true), ("x", .str "v")]))))
       = some (canonicalize_json
           (Json.obj [("type", .str "set"), ("data", .obj [("b", .num 1), ("a", .null)])])) ∧
     lookupKey "delegate_action" (payloadFields (build_payload "t" "k" 1 2
        (Json.obj [("type", .str "set"), ("data", .obj [("b", .num 1), ("a", .null)])])
        (some (Json.obj [("y", .bool true), ("x", .str "v")]))))
       = some (canonicalize_json (Json.obj [("y", .bool true), ("x", .str "v")])) ∧
     isCanonB (canonicalize_json
        (Json.obj [("type", .str "set"), ("data", .obj [("b", .num 1), ("a", .null)])])) = true ∧
     isCanonB (canonicalize_json (Json.obj [("y", .bool true), ("x", .str "v")])) = true ∧
     dumpsBytes (build_payload "t" "k" 1 2
        (Json.obj [("type", .str "set"), ("data", .obj [("b", .num 1), ("a", .null)])])
        (some (Json.obj [("y", .bool true), ("x", .str "v")])))
       = dumpsBytes (build_payload "t" "k" 1 2
           (Json.obj [("data", .obj [("a", .null), ("b", .num 1)]), ("type", .str "set")])
           (some (Json.obj [("x", .str "v"), ("y", .bool true)])))) :=
  ⟨by decide, by decide,
    C1_canonical_payload_bytes "t" "k" 1 2
      (Json.obj [("type", .str "set"), ("data", .obj [("b", .num 1), ("a", .null)])])
      (Json.obj [("data", .obj [("a", .null), ("b", .num 1)]), ("type", .str "set")])
      (Json.obj [("y", .bool true), ("x", .str "v")])
      (Json.obj [("x", .str "v"), ("y", .bool true)])
      (by decide) (by decide)⟩

/-- C9: the nonce and expires_at_ms fields of every canonical payload
are emitted as decimal strings rendered by str - the field value is a
JSON string, never a JSON number - and the compact serialization of a
payload contains no whitespace; rendering these fields as numbers yields
different signed bytes. -/
theorem C9_decimal_string_fields (t pk : String) (n e : Nat) (a : Json)
    (d : Option Json) :
    lookupKey "nonce" (payloadFields (build_payload t pk n e a d))
      = some (.str (toString n)) ∧
    lookupKey "expires_at_ms" (payloadFields (build_payload t pk n e a d))
      = some (.str (toString e)) ∧
    dumpsBytes (build_payload "a" "k" 1 2 .null none)
      ≠ dumpsBytes (build_payload_numeric "a" "k" 1 2 .null none) ∧
    (dumpsBytes (build_payload "a" "k" 1 2 .null none)).all
      (fun b => decide (b ≠ 32)) = true :=
  ⟨rfl, rfl, by decide, by decide⟩

/-! ## Domain separation lemmas -/

theorem utf8_foldr_ascii (l : List Char) (h : ∀ c ∈ l, c.toNat < 128) :
    l.foldr (fun ch acc => utf8Char ch.toNat ++ acc) [] = l.map (fun c => c.toNat) := by
  induction l with
  | nil => rfl
  | cons c rest ih =>
    simp only [List.foldr_cons, List.map_cons]
    rw [ih (fun x hx => h x (List.mem_cons_of_mem _ hx))]
    have hc := h c (List.mem_cons_self _ _)
    simp [utf8Char, hc]

theorem asciiNoNul_spec {s : String} (h : asciiNoNul s = true) :
    ∀ c ∈ s.data, 0 < c.toNat ∧ c.toNat < 128 := by
  intro c hc
  have h2 := List.all_eq_true.mp h c hc
  simp only [Bool.and_eq_true, decide_eq_true_eq] at h2
  exact h2

theorem utf8Bytes_ascii {s : String} (h : asciiNoNul s = true) :
    utf8Bytes s = s.data.map (fun c => c.toNat) :=
  utf8_foldr_ascii s.data (fun c hc => (asciiNoNul_spec h c hc).2)

theorem zero_not_mem_utf8_ascii {s : String} (h : asciiNoNul s = true) :
    0 ∉ utf8Bytes s := by
  rw [utf8Bytes_ascii h]
  intro hc
  rcases List.mem_map.mp hc with ⟨c, hc2, hc3⟩
  have := (asciiNoNul_spec h c hc2).1
  omega

theorem append_zero_inj {a1 a2 r1 r2 : List Nat}
    (h1 : 0 ∉ a1) (h2 : 0 ∉ a2) (heq : a1 ++ 0 :: r1 = a2 ++ 0 :: r2) :
    a1 = a2 ∧ r1 = r2 := by
  induction a1 generalizing a2 with
  | nil =>
    cases a2 with
    | nil => simpa using heq
    | cons x t =>
      rw [List.nil_append, List.cons_append] at heq
      injection heq with hx ht
      exact absurd (by rw [hx]; exact List.mem_cons_self x t) h2
  | cons x t ih =>
    cases a2 with
    | nil =>
      rw [List.nil_append, List.cons_append] at heq
      injection heq with hx ht
      exact absurd (by rw [← hx]; exact List.mem_cons_self x t) h1
    | cons y t2 =>
      rw [List.cons_append, List.cons_append] at heq
      injection heq with hxy ht
      obtain ⟨ha, hr⟩ := ih (fun hc => h1 (List.mem_cons_of_mem _ hc))
        (fun hc => h2 (List.mem_cons_of_mem _ hc)) ht
      exact ⟨by rw [hxy, ha], hr⟩

theorem string_data_inj {s t : String} (h : s.data = t.data) : s = t := by
  cases s
  cases t
  simp only at h
  rw [h]

theorem signMessage_inj {d1 d2 : String} {p1 p2 : List Nat}
    (h1 : asciiNoNul d1 = true) (h2 : asciiNoNul d2 = true)
    (heq : signMessage d1 p1 = signMessage d2 p2) : d1 = d2 ∧ p1 = p2 := by
  unfold signMessage at heq
  obtain ⟨ha, hr⟩ := append_zero_inj (zero_not_mem_utf8_ascii h1)
    (zero_not_mem_utf8_ascii h2) heq
  rw [utf8Bytes_ascii h1, utf8Bytes_ascii h2] at ha
  refine ⟨?_, hr⟩
  apply string_data_inj
  have hinj : Function.Injective (fun c : Char => c.toNat) :=
    fun c d hcd => Char.ext (UInt32.ext hcd)
  exact List.map_injective_iff.mpr hinj ha

/-- C2: `sign_payload` signs the SHA-256 digest of
domain ++ 0x00 ++ canonical payload bytes; the domain strings are the
versioned, contract-binding strings of the two auth variants; a
signature bound to one domain verifies under that same domain and
payload, and fails verification under any other domain (wrong contract
id, version, or auth type), even though it is otherwise valid. -/
theorem C2_domain_separated_signing (seed : Nat) (t t2 : AuthType)
    (cid cid2 : String) (p p2 : List Nat)
    (h1 : asciiNoNul (authDomain t cid) = true)
    (h2 : asciiNoNul (authDomain t2 cid2) = true)
    (hdiff : authDomain t cid ≠ authDomain t2 cid2) :
    sign_payload seed (authDomain t cid) p
      = edSign seed (sha256 (utf8Bytes (authDomain t cid) ++ 0 :: p)) ∧
    signedDomain cid = "onsocial:execute:v1:" ++ cid ∧
    delegateDomain cid = "onsocial:execute:delegate:v1:" ++ cid ∧
    verifyBound seed (boundSign seed (authDomain t cid) p) t cid p = true ∧
    verifyBound seed (boundSign seed (authDomain t cid) p) t2 cid2 p2 = false := by
  refine ⟨rfl, rfl, rfl, by simp [verifyBound, boundSign], ?_⟩
  have hne : signMessage (authDomain t cid) p ≠ signMessage (authDomain t2 cid2) p2 :=
    fun hc => hdiff (signMessage_inj h1 h2 hc).1
  simp [verifyBound, boundSign, hne]

/-- C2 witness: the signed-payload domain and the delegate domain for the
same contract are distinct, so cross-verification fails. -/
theorem C2_domain_separated_signing_witness :
    asciiNoNul (authDomain .signedPayload "c.testnet") = true ∧
    asciiNoNul (authDomain .delegateAction "c.testnet") = true ∧
    authDomain .signedPayload "c.testnet" ≠ authDomain .delegateAction "c.testnet" ∧
    (sign_payload 7 (authDomain .signedPayload "c.testnet") [1, 2]
       = edSign 7 (sha256 (utf8Bytes (authDomain .signedPayload "c.testnet") ++ 0 :: [1, 2])) ∧
     signedDomain "c.testnet" = "onsocial:execute:v1:" ++ "c.testnet" ∧
     delegateDomain "c.testnet" = "onsocial:execute:delegate:v1:" ++ "c.testnet" ∧
     verifyBound 7 (boundSign 7 (authDomain .signedPayload "c.testnet") [1, 2])
       .signedPayload "c.testnet" [1, 2] = true ∧
     verifyBound 7 (boundSign 7 (authDomain .signedPayload "c.testnet") [1, 2])
       .delegateAction "c.testnet" [3] = false) :=
  ⟨by decide, by decide, by decide,
    C2_domain_separated_signing 7 .signedPayload .delegateAction "c.testnet" "c.testnet"
      [1, 2] [3] (by decide) (by decide) (by decide)⟩

/-! ## Lemmas about the ancestor walk -/

theorem mem_prefixesNE (p : List String) :
    ∀ q : List String, q ∈ prefixesNE p ↔ q ≠ [] ∧ q <+: p := by
  induction p with
  | nil =>
    intro q
    simp only [prefixesNE, List.not_mem_nil, false_iff, not_and]
    intro hne hpre
    exact hne (List.prefix_nil.mp hpre)
  | cons s rest ih =>
    intro q
    simp only [prefixesNE]
    cases q with
    | nil =>
      simp [List.mem_map]
    | cons x q2 =>
      constructor
      · intro hmem
        rcases List.mem_cons.mp hmem with h | h
        · obtain ⟨h1, h2⟩ := List.cons.inj h
          subst h1
          subst h2
          exact ⟨List.cons_ne_nil _ _, List.cons_prefix_cons.mpr ⟨rfl, List.nil_prefix⟩⟩
        · rcases List.mem_map.mp h with ⟨r, hr, hrq⟩
          obtain ⟨h1, h2⟩ := List.cons.inj hrq
          subst h1
          subst h2
          exact ⟨List.cons_ne_nil _ _,
            List.cons_prefix_cons.mpr ⟨rfl, ((ih r).mp hr).2⟩⟩
      · rintro ⟨-, hpre⟩
        obtain ⟨hxs, hq2⟩ := List.cons_prefix_cons.mp hpre
        subst hxs
        cases q2 with
        | nil => exact List.mem_cons_self _ _
        | cons y q3 =>
          apply List.mem_cons_of_mem
          exact List.mem_map.mpr
            ⟨y :: q3, (ih (y :: q3)).mpr ⟨List.cons_ne_nil _ _, hq2⟩, rfl⟩

theorem le_foldr_max {α : Type} (f : α → Nat) (L : List α) (q : α) (hq : q ∈ L) :
    f q ≤ L.foldr (fun x acc => max (f x) acc) 0 := by
  induction L with
  | nil => cases hq
  | cons x xs ih =>
    rcases List.mem_cons.mp hq with rfl | h
    · exact le_max_left _ _
    · exact le_trans (ih h) (le_max_right _ _)

theorem foldr_max_congr {α : Type} (f f2 : α → Nat) (L : List α)
    (h : ∀ x ∈ L, f x = f2 x) :
    L.foldr (fun x acc => max (f x) acc) 0 = L.foldr (fun x acc => max (f2 x) acc) 0 := by
  induction L with
  | nil => rfl
  | cons x xs ih =>
    simp only [List.foldr_cons, h x (List.mem_cons_self x xs),
      ih (fun y hy => h y (List.mem_cons_of_mem x hy))]

theorem walkLevel_le_effectiveLevel (now : Nat) (tbl : PermTable) (o g : String)
    (p q : List String) (hq : q ∈ prefixesNE p) :
    walkLevel now tbl o g q ≤ effectiveLevel now tbl o g p :=
  le_foldr_max (walkLevel now tbl o g) (prefixesNE p) q hq

theorem lookupGrant_erase_ne (tbl : PermTable) (k k2 : PermKey) (h : k2 ≠ k) :
    lookupGrant (erasePerm tbl k) k2 = lookupGrant tbl k2 := by
  induction tbl with
  | nil => rfl
  | cons e rest ih =>
    by_cases he : e.1 = k
    · have h1 : erasePerm (e :: rest) k = erasePerm rest k := by
        simp [erasePerm, List.filter_cons, he]
      have hne : e.1 ≠ k2 := by
        rw [he]
        exact h.symm
      rw [h1, ih]
      simp only [lookupGrant]
      rw [if_neg hne]
    · have h1 : erasePerm (e :: rest) k = e :: erasePerm rest k := by
        simp [erasePerm, List.filter_cons, he]
      rw [h1]
      simp only [lookupGrant]
      by_cases he2 : e.1 = k2
      · rw [if_pos he2, if_pos he2]
      · rw [if_neg he2, if_neg he2]
        exact ih

theorem lookupGrant_erase_self (tbl : PermTable) (k : PermKey) :
    lookupGrant (erasePerm tbl k) k = none := by
  induction tbl with
  | nil => rfl
  | cons e rest ih =>
    by_cases he : e.1 = k
    · simpa [erasePerm, List.filter_cons, he] using ih
    · simpa [erasePerm, List.filter_cons, he, lookupGrant] using ih

theorem lookupGrant_set (tbl : PermTable) (o g : String) (p : List String)
    (l : Nat) (e : Option Nat) (k : PermKey) :
    lookupGrant (setPermission tbl o g p l e) k
      = if k = (o, g, p) then some (Grant.mk l e) else lookupGrant tbl k := by
  by_cases hk : k = (o, g, p)
  · simp [setPermission, lookupGrant, hk]
  · simp only [setPermission, lookupGrant, hk, if_false]
    rw [if_neg (fun hc => hk (by simpa using hc.symm))]
    exact lookupGrant_erase_ne tbl (o, g, p) k hk

theorem walkLevel_set_ne (now : Nat) (tbl : PermTable) (o g : String) (p : List String)
    (l : Nat) (e : Option Nat) (o2 g2 : String) (q : List String)
    (h : (o2, g2, q) ≠ (o, g, p)) :
    walkLevel now (setPermission tbl o g p l e) o2 g2 q = walkLevel now tbl o2 g2 q := by
  simp [walkLevel, lookupGrant_set, h]

theorem effectiveLevel_set_not_walk (now : Nat) (tbl : PermTable) (o g : String)
    (p : List String) (l : Nat) (e : Option Nat) (o2 g2 : String) (path : List String)
    (h : ∀ q ∈ prefixesNE path, (o2, g2, q) ≠ (o, g, p)) :
    effectiveLevel now (setPermission tbl o g p l e) o2 g2 path
      = effectiveLevel now tbl o2 g2 path :=
  foldr_max_congr _ _ (prefixesNE path)
    (fun q hq => walkLevel_set_ne now tbl o g p l e o2 g2 q (h q hq))

theorem sibling_not_in_walk (base : List String) (b c : String) (rest : List String)
    (hbc : b ≠ c) : base ++ [b] ∉ prefixesNE (base ++ c :: rest) := by
  intro hmem
  have hpre := ((mem_prefixesNE (base ++ c :: rest) (base ++ [b])).mp hmem).2
  have h2 : [b] <+: c :: rest := (List.prefix_append_right_inj base).mp hpre
  exact hbc (List.cons_prefix_cons.mp h2).1

/-- C3: a non-expired grant on an ancestor (or the path itself) is a lower
bound on the effective level, so the corresponding check passes on every
descendant; and a MODERATE grant on a parent together with a WRITE grant
on the child still yields effective level MODERATE on the child. -/
theorem C3_ancestor_walk_resolution (now : Nat) (tbl : PermTable) (o g : String)
    (anc p : List String) (l : Nat)
    (hgr : lookupGrant tbl (o, g, anc) = some (Grant.mk l none))
    (hne : anc ≠ []) (hpre : anc <+: p) :
    l ≤ effectiveLevel now tbl o g p ∧
    checkPerm now tbl o g p l = true ∧
    (∀ o2 g2 : String, ∀ a b : String,
      effectiveLevel now
        (setPermission (setPermission [] o2 g2 [a] levelMODERATE none) o2 g2 [a, b] levelWRITE none)
        o2 g2 [a, b] = levelMODERATE) := by
  have hmem : anc ∈ prefixesNE p := (mem_prefixesNE p anc).mpr ⟨hne, hpre⟩
  have hwl : walkLevel now tbl o g anc = l := by simp [walkLevel, hgr]
  have hle : l ≤ effectiveLevel now tbl o g p :=
    hwl ▸ walkLevel_le_effectiveLevel now tbl o g p anc hmem
  refine ⟨hle, by simpa [checkPerm] using hle, ?_⟩
  intro o2 g2 a b
  have hab : ([a] : List String) ≠ [a, b] := by simp
  simp [effectiveLevel, prefixesNE, walkLevel, setPermission, erasePerm,
    lookupGrant, List.filter_cons, hab, levelMODERATE, levelWRITE]

/-- C3 witness. -/
theorem C3_ancestor_walk_resolution_witness :
    lookupGrant [(("o", "g", ["a"]), Grant.mk 1 none)] ("o", "g", ["a"])
        = some (Grant.mk 1 none) ∧
    (["a"] : List String) ≠ [] ∧
    (["a"] : List String) <+: ["a", "x", "y", "z"] ∧
    (1 ≤ effectiveLevel 0 [(("o", "g", ["a"]), Grant.mk 1 none)] "o" "g" ["a", "x", "y", "z"] ∧
     checkPerm 0 [(("o", "g", ["a"]), Grant.mk 1 none)] "o" "g" ["a", "x", "y", "z"] 1 = true ∧
     (∀ o2 g2 : String, ∀ a b : String,
       effectiveLevel 0
         (setPermission (setPermission [] o2 g2 [a] levelMODERATE none) o2 g2 [a, b] levelWRITE none)
         o2 g2 [a, b] = levelMODERATE)) :=
  ⟨by decide, by decide, ⟨["x", "y", "z"], rfl⟩,
    C3_ancestor_walk_resolution 0 [(("o", "g", ["a"]), Grant.mk 1 none)] "o" "g"
      ["a"] ["a", "x", "y", "z"] 1 (by decide) (by decide) ⟨["x", "y", "z"], rfl⟩⟩

theorem effectiveLevel_set_expired (now t l : Nat) (tbl : PermTable) (o g : String)
    (p : List String) (hpast : t < now) (o2 g2 : String) (q2 : List String) :
    effectiveLevel now (setPermission tbl o g p l (some t)) o2 g2 q2
      = effectiveLevel now (erasePerm tbl (o, g, p)) o2 g2 q2 := by
  apply foldr_max_congr
  intro x hx
  by_cases hk : (o2, g2, x) = (o, g, p)
  · simp only [Prod.mk.injEq] at hk
    obtain ⟨rfl, rfl, rfl⟩ := hk
    have h1 : walkLevel now (setPermission tbl o2 g2 x l (some t)) o2 g2 x = 0 := by
      simp [walkLevel, lookupGrant_set, hpast]
    have h2 : walkLevel now (erasePerm tbl (o2, g2, x)) o2 g2 x = 0 := by
      unfold walkLevel
      rw [lookupGrant_erase_self]
    rw [h1, h2]
  · rw [walkLevel_set_ne now tbl o g p l (some t) o2 g2 x hk]
    unfold walkLevel
    rw [lookupGrant_erase_ne tbl (o, g, p) (o2, g2, x) hk]

theorem effectiveLevel_empty (now : Nat) (o g : String) (q : List String) :
    effectiveLevel now [] o g q = 0 := by
  unfold effectiveLevel
  induction prefixesNE q with
  | nil => rfl
  | cons x xs ih => simp [walkLevel, lookupGrant, ih]

/-- C6: a grant stored with an expiry in the past is retained in storage
with its stored level, evaluates as level NONE, leaves every effective
level exactly as if the tuple were absent, and in particular fails every
check of level WRITE or higher when it is the only grant. -/
theorem C6_expired_grant_is_none (now t l : Nat) (tbl : PermTable) (o g : String)
    (p q : List String) (req : Nat) (hpast : t < now) (hreq : 1 ≤ req) :
    lookupGrant (setPermission tbl o g p l (some t)) (o, g, p) = some (Grant.mk l (some t)) ∧
    walkLevel now (setPermission tbl o g p l (some t)) o g p = levelNONE ∧
    (∀ o2 g2 : String, ∀ q2 : List String,
      effectiveLevel now (setPermission tbl o g p l (some t)) o2 g2 q2
        = effectiveLevel now (erasePerm tbl (o, g, p)) o2 g2 q2) ∧
    checkPerm now (setPermission [] o g p l (some t)) o g q req = false := by
  refine ⟨by simp [lookupGrant_set], ?_,
    fun o2 g2 q2 => effectiveLevel_set_expired now t l tbl o g p hpast o2 g2 q2, ?_⟩
  · simp [walkLevel, lookupGrant_set, hpast, levelNONE]
  · have h1 := effectiveLevel_set_expired now t l [] o g p hpast o g q
    have h2 : erasePerm [] (o, g, p) = [] := rfl
    rw [h2, effectiveLevel_empty] at h1
    simp only [checkPerm, h1, decide_eq_false_iff_not, not_le]
    omega

/-- C6 witness. -/
theorem C6_expired_grant_is_none_witness :
    (5 : Nat) < 10 ∧ (1 : Nat) ≤ 1 ∧
    (lookupGrant (setPermission [] "o" "g" ["a", "b"] 3 (some 5)) ("o", "g", ["a", "b"])
        = some (Grant.mk 3 (some 5)) ∧
     walkLevel 10 (setPermission [] "o" "g" ["a", "b"] 3 (some 5)) "o" "g" ["a", "b"] = levelNONE ∧
     (∀ o2 g2 : String, ∀ q2 : List String,
       effectiveLevel 10 (setPermission [] "o" "g" ["a", "b"] 3 (some 5)) o2 g2 q2
         = effectiveLevel 10 (erasePerm [] ("o", "g", ["a", "b"])) o2 g2 q2) ∧
     checkPerm 10 (setPermission [] "o" "g" ["a", "b"] 3 (some 5)) "o" "g" ["a", "b"] 1 = false) :=
  ⟨by decide, by decide,
    C6_expired_grant_is_none 10 5 3 [] "o" "g" ["a", "b"] ["a", "b"] 1 (by decide) (by decide)⟩

/-- C7: the permission levels are the ordered enumeration NONE(0) <
WRITE(1) < MODERATE(2) < MANAGE(3), a passing check at a higher level
implies a passing check at every lower level on the same resolved path,
and in particular MANAGE implies MODERATE and WRITE. -/
theorem C7_levels_downward_closed (now : Nat) (tbl : PermTable) (o g : String)
    (p : List String) (l m : Nat) (hlm : l ≤ m)
    (hm : checkPerm now tbl o g p m = true) :
    (levelNONE < levelWRITE ∧ levelWRITE < levelMODERATE ∧ levelMODERATE < levelMANAGE) ∧
    checkPerm now tbl o g p l = true ∧
    (checkPerm now tbl o g p levelMANAGE = true →
      checkPerm now tbl o g p levelMODERATE = true ∧ checkPerm now tbl o g p levelWRITE = true) := by
  simp only [checkPerm, decide_eq_true_eq] at hm ⊢
  refine ⟨by decide, le_trans hlm hm, ?_⟩
  intro hmg
  exact ⟨le_trans (by decide) hmg, le_trans (by decide) hmg⟩

/-- C7 witness. -/
theorem C7_levels_downward_closed_witness :
    (1 : Nat) ≤ 3 ∧
    checkPerm 0 (setPermission [] "o" "g" ["a", "b"] 3 none) "o" "g" ["a", "b"] 3 = true ∧
    ((levelNONE < levelWRITE ∧ levelWRITE < levelMODERATE ∧ levelMODERATE < levelMANAGE) ∧
     checkPerm 0 (setPermission [] "o" "g" ["a", "b"] 3 none) "o" "g" ["a", "b"] 1 = true ∧
     (checkPerm 0 (setPermission [] "o" "g" ["a", "b"] 3 none) "o" "g" ["a", "b"] levelMANAGE = true →
       checkPerm 0 (setPermission [] "o" "g" ["a", "b"] 3 none) "o" "g" ["a", "b"] levelMODERATE = true ∧
       checkPerm 0 (setPermission [] "o" "g" ["a", "b"] 3 none) "o" "g" ["a", "b"] levelWRITE = true)) :=
  ⟨by decide, by decide,
    C7_levels_downward_closed 0 (setPermission [] "o" "g" ["a", "b"] 3 none) "o" "g"
      ["a", "b"] 1 3 (by decide) (by decide)⟩

/-- C8: granting any level on a sibling path base/b leaves the effective
level of base/c and of its whole subtree unchanged, for b distinct from
c - grants never leak sideways. -/
theorem C8_sibling_isolation (now : Nat) (tbl : PermTable) (o g : String)
    (base : List String) (b c : String) (rest : List String) (l : Nat)
    (e : Option Nat) (hbc : b ≠ c) :
    effectiveLevel now (setPermission tbl o g (base ++ [b]) l e) o g (base ++ c :: rest)
      = effectiveLevel now tbl o g (base ++ c :: rest) := by
  apply effectiveLevel_set_not_walk
  intro q hq hkey
  simp only [Prod.mk.injEq] at hkey
  obtain ⟨-, -, rfl⟩ := hkey
  exact sibling_not_in_walk base b c rest hbc hq

/-- C4: after a vote on an Active proposal the new status is Executed
exactly when the approval and participation thresholds are both met over
the locked member count (with the mutation applied in the same step),
Rejected exactly when defeat is already certain, Active otherwise; two
no votes in a 3-member group with a 51 percent threshold reject without
a third vote, and two yes votes there execute. -/
theorem C4_vote_quorum_transitions (cfg : VotingConfig) (grp : Group) (p : Proposal)
    (voter : String) (approve : Bool) (hact : p.status = .active)
    (hm : voter ∈ grp.members) (hnv : voter ∉ p.votes.map Prod.fst) :
    voteOnProposal cfg grp p voter approve
      = .ok (if evaluateProposal cfg (recordVote p voter approve) = .executed
               then applyProposalAction grp p.action else grp,
             withStatus (recordVote p voter approve)
               (evaluateProposal cfg (recordVote p voter approve))) ∧
    (∀ cfg2 : VotingConfig, ∀ p2 : Proposal,
      (evaluateProposal cfg2 p2 = .executed ↔ passCondition cfg2 p2 = true) ∧
      (evaluateProposal cfg2 p2 = .rejected ↔
        (passCondition cfg2 p2 = false ∧ earlyRejectCondition cfg2 p2 = true)) ∧
      (evaluateProposal cfg2 p2 = .active ↔
        (passCondition cfg2 p2 = false ∧ earlyRejectCondition cfg2 p2 = false))) ∧
    evaluateProposal (VotingConfig.mk 5100 5100)
      (Proposal.mk "pr" .custom .active 3 [("v2", false), ("v3", false)]) = .rejected ∧
    evaluateProposal (VotingConfig.mk 5100 5100)
      (Proposal.mk "pr" .custom .active 3 [("v2", true), ("v3", true)]) = .executed := by
  refine ⟨?_, ?_, by decide, by decide⟩
  · by_cases hst : evaluateProposal cfg (recordVote p voter approve) = .executed <;>
      simp [voteOnProposal, hact, hm, hnv, hst]
  · intro cfg2 p2
    by_cases h1 : passCondition cfg2 p2 <;>
      by_cases h2 : earlyRejectCondition cfg2 p2 <;>
        simp [evaluateProposal, h1, h2]

/-- C4 witness. -/
theorem C4_vote_quorum_transitions_witness :
    (Proposal.mk "pr" .custom .active 3 []).status = .active ∧
    "v2" ∈ (Group.mk "pr" true true ["pr", "v2", "v3"] []).members ∧
    "v2" ∉ (Proposal.mk "pr" .custom .active 3 []).votes.map Prod.fst ∧
    (voteOnProposal (VotingConfig.mk 5100 5100) (Group.mk "pr" true true ["pr", "v2", "v3"] [])
        (Proposal.mk "pr" .custom .active 3 []) "v2" true
      = .ok (if evaluateProposal (VotingConfig.mk 5100 5100)
                  (recordVote (Proposal.mk "pr" .custom .active 3 []) "v2" true) = .executed
               then applyProposalAction (Group.mk "pr" true true ["pr", "v2", "v3"] [])
                      (Proposal.mk "pr" .custom .active 3 []).action
               else Group.mk "pr" true true ["pr", "v2", "v3"] [],
             withStatus (recordVote (Proposal.mk "pr" .custom .active 3 []) "v2" true)
               (evaluateProposal (VotingConfig.mk 5100 5100)
                 (recordVote (Proposal.mk "pr" .custom .active 3 []) "v2" true))) ∧
     (∀ cfg2 : VotingConfig, ∀ p2 : Proposal,
       (evaluateProposal cfg2 p2 = .executed ↔ passCondition cfg2 p2 = true) ∧
       (evaluateProposal cfg2 p2 = .rejected ↔
         (passCondition cfg2 p2 = false ∧ earlyRejectCondition cfg2 p2 = true)) ∧
       (evaluateProposal cfg2 p2 = .active ↔
         (passCondition cfg2 p2 = false ∧ earlyRejectCondition cfg2 p2 = false))) ∧
     evaluateProposal (VotingConfig.mk 5100 5100)
       (Proposal.mk "pr" .custom .active 3 [("v2", false), ("v3", false)]) = .rejected ∧
     evaluateProposal (VotingConfig.mk 5100 5100)
       (Proposal.mk "pr" .custom .active 3 [("v2", true), ("v3", true)]) = .executed) :=
  ⟨by decide, by decide, by decide,
    C4_vote_quorum_transitions (VotingConfig.mk 5100 5100)
      (Group.mk "pr" true true ["pr", "v2", "v3"] [])
      (Proposal.mk "pr" .custom .active 3 []) "v2" true (by decide) (by decide) (by decide)⟩

theorem applyGroupOp_preserves (g : Group) (op : GroupOp) :
    (applyGroupOp g op).memberDriven = g.memberDriven ∧
    (g.memberDriven = true → (applyGroupOp g op).isPrivate = g.isPrivate) := by
  cases op with
  | directSetPrivacy c pb =>
    by_cases hmd : g.memberDriven = true
    · simp [applyGroupOp, setGroupPrivacy, hmd]
    · by_cases hc : c ≠ g.owner <;> simp [applyGroupOp, setGroupPrivacy, hmd, hc]
  | directTransfer c n =>
    by_cases hmd : g.memberDriven = true
    · simp [applyGroupOp, transferGroupOwnership, hmd]
    · by_cases h1 : c ≠ g.owner
      · simp [applyGroupOp, transferGroupOwnership, hmd, h1]
      · by_cases h2 : n = c
        · simp [applyGroupOp, transferGroupOwnership, hmd, h1, h2]
        · by_cases h3 : n ∈ g.blacklist
          · simp [applyGroupOp, transferGroupOwnership, hmd, h1, h2, h3]
          · by_cases h4 : n ∉ g.members <;>
              simp [applyGroupOp, transferGroupOwnership, hmd, h1, h2, h3, h4]
  | govTransfer n => simp [applyGroupOp, govTransferOwnership]
  | govInvite m => simp [applyGroupOp, govAddMember]

theorem reachable_member_driven_invariant (g0 g : Group) (h : ReachableGroup g0 g)
    (hmd : g0.memberDriven = true) (hpriv : g0.isPrivate = true) :
    g.memberDriven = true ∧ g.isPrivate = true := by
  induction h with
  | refl => exact ⟨hmd, hpriv⟩
  | step g2 op hr ih =>
    obtain ⟨h1, h2⟩ := ih
    obtain ⟨hp1, hp2⟩ := applyGroupOp_preserves g2 op
    exact ⟨by rw [hp1]; exact h1, by rw [hp2 h1]; exact h2⟩

/-- C5: a member-driven group is private at creation and in every
reachable later state, and direct set_group_privacy or
transfer_group_ownership calls on it always fail GovernanceRequired. -/
theorem C5_member_driven_always_private (caller : String) (isPriv : Bool) (g2 : Group)
    (c2 newOwner : String) (b : Bool)
    (hreach : ReachableGroup (createGroup caller isPriv true) g2) :
    (createGroup caller isPriv true).isPrivate = true ∧
    g2.isPrivate = true ∧
    setGroupPrivacy c2 g2 b = .error .governanceRequired ∧
    transferGroupOwnership c2 g2 newOwner = .error .governanceRequired := by
  have hc : (createGroup caller isPriv true).memberDriven = true := rfl
  have hp : (createGroup caller isPriv true).isPrivate = true := by simp [createGroup]
  obtain ⟨hmd2, hpriv2⟩ := reachable_member_driven_invariant _ _ hreach hc hp
  exact ⟨hp, hpriv2, by simp [setGroupPrivacy, hmd2], by simp [transferGroupOwnership, hmd2]⟩

/-- C5 witness, exercising a nontrivial reachable state (a governance
member invite applied to the freshly created group). -/
theorem C5_member_driven_always_private_witness :
    ReachableGroup (createGroup "owner" false true)
      (applyGroupOp (createGroup "owner" false true) (.govInvite "m2")) ∧
    ((createGroup "owner" false true).isPrivate = true ∧
     (applyGroupOp (createGroup "owner" false true) (.govInvite "m2")).isPrivate = true ∧
     setGroupPrivacy "owner" (applyGroupOp (createGroup "owner" false true) (.govInvite "m2")) false
       = .error .governanceRequired ∧
     transferGroupOwnership "owner"
       (applyGroupOp (createGroup "owner" false true) (.govInvite "m2")) "m2"
       = .error .governanceRequired) :=
  ⟨ReachableGroup.step _ _ ReachableGroup.refl,
    C5_member_driven_always_private "owner" false _ "owner" "m2" false
      (ReachableGroup.step _ _ ReachableGroup.refl)⟩

/-- C8 witness. -/
theorem C8_sibling_isolation_witness :
    "b" ≠ "c" ∧
    effectiveLevel 0 (setPermission [] "o" "g" (["a"] ++ ["b"]) 3 none) "o" "g" (["a"] ++ "c" :: [])
      = effectiveLevel 0 [] "o" "g" (["a"] ++ "c" :: []) :=
  ⟨by decide, C8_sibling_isolation 0 [] "o" "g" ["a"] "b" "c" [] 3 none (by decide)⟩

end OnSocial
